import Mathlib

/-!
Verification development for the Bookkeeper speed-test log-parsing scripts.

The scripts are shallowly embedded: Python dicts become insertion-ordered
association lists (`dget` / `dset`), Python `int` becomes `ℤ`, Python `float`
becomes `ℚ` holding the exact decimal value of the parsed literal (IEEE-754
rounding of the binary double is abstracted away; no claim here depends on it),
and a function that can raise becomes an `Option`/`Except` returning function.

The timing extractors operate on the list of regex matches already sorted by
byte offset (`parse_timing_data` builds exactly such a list before its grouping
loop); an event is the pair (event name, integer millisecond value).  The
folder-metric extractors operate on the list of captured blob texts (the
`re.findall` results), each a `List Char`.
-/

set_option autoImplicit false

namespace Bookkeeper

/-- Model of a Python numeric value: `int` is exact; `float m s` is the exact
decimal value `m / 10 ^ s` of the float's decimal source literal (mantissa and
decimal shift, kept unreduced so that every computation on it is
kernel-computable).  The subsequent IEEE-754 rounding of the binary double is
abstracted away; no claim here depends on it. -/
inductive PyVal where
  | int : ℤ → PyVal
  | float : ℤ → ℕ → PyVal
deriving DecidableEq

/-- Lookup in an insertion-ordered association list (Python `dict.get`):
first entry with the given key, `none` when absent.  Keys are unique in every
dict built by `dset`, so first-match equals Python's unique-key lookup. -/
def dget {κ α : Type} [DecidableEq κ] : List (κ × α) → κ → Option α
  | [], _ => none
  | p :: rest, k => if p.1 = k then some p.2 else dget rest k

/-- Python `d[k] = v`: overwrite the entry in place when the key is present
(insertion order preserved), otherwise append the new entry. -/
def dset {κ α : Type} [DecidableEq κ] : List (κ × α) → κ → α → List (κ × α)
  | [], k, v => [(k, v)]
  | p :: rest, k, v => if p.1 = k then (k, v) :: rest else p :: dset rest k v

/-- A timing event as produced by the regex scan: (event name, `int(timing)`). -/
abbrev Event := String × ℤ

/-- The run boundary marker event name. -/
def startEvent : String := "PROCESSING_START"

/-- One iteration of the grouping loop of `parse_timing_data`
(src/docs/plans/Bookkeeper/speed_tests/parse_console_log.py lines 135-141;
identical loop in improved_parser_json.py lines 93-99): the run counter is
incremented on the boundary marker, and the event is stored under the current
run only once a first boundary has been seen (`if current_test_run > 0`). -/
def timingStep (st : ℕ × List (ℕ × List (String × ℤ))) (e : Event) :
    ℕ × List (ℕ × List (String × ℤ)) :=
  let cur := if e.1 = startEvent then st.1 + 1 else st.1
  (cur, if 0 < cur then dset st.2 cur (dset ((dget st.2 cur).getD []) e.1 e.2) else st.2)

/-- The grouping pass of `parse_timing_data` in
src/docs/plans/Bookkeeper/speed_tests/parse_console_log.py (and
improved_parser_json.py): fold the offset-ordered events into the
`test_run_data` defaultdict, starting with `current_test_run = 0`. -/
def parse_timing_data_groups (evs : List Event) : List (ℕ × List (String × ℤ)) :=
  (evs.foldl timingStep (0, [])).2

/-- One iteration of the grouping loop of `parse_timing_data` in
src/docs/speed_tests/parse_console_log.py lines 100-104: same update but with
no `current_test_run > 0` guard — every event is stored. -/
def timingStepDocs (st : ℕ × List (ℕ × List (String × ℤ))) (e : Event) :
    ℕ × List (ℕ × List (String × ℤ)) :=
  let cur := if e.1 = startEvent then st.1 + 1 else st.1
  (cur, dset st.2 cur (dset ((dget st.2 cur).getD []) e.1 e.2))

/-- The grouping pass of `parse_timing_data` in
src/docs/speed_tests/parse_console_log.py: the counter starts at 1
(`current_test_run = 1`), so events seen before any boundary marker are stored
under run 1 and the first marker opens run 2. -/
def parse_timing_data_groups_docs (evs : List Event) : List (ℕ × List (String × ℤ)) :=
  (evs.foldl timingStepDocs (1, [])).2

/-- Number of boundary markers in an event list. -/
def countStart (evs : List Event) : ℕ :=
  evs.countP (fun e => decide (e.1 = startEvent))

/-- The events the grouping loop attributes to run `k` when the counter starts
at `c`: an event belongs to the value of the counter right after processing it.
Used as the specification vocabulary for the grouping theorems. -/
def runEventsFrom (c k : ℕ) : List Event → List Event
  | [] => []
  | e :: rest =>
    let c2 := if e.1 = startEvent then c + 1 else c
    (if c2 = k then [e] else []) ++ runEventsFrom c2 k rest

/-- Last-write-wins event map of a run segment: fold the segment's events into
a dict, later occurrences of a name overwriting earlier ones. -/
def lastMap (seg : List Event) : List (String × ℤ) :=
  seg.foldl (fun m e => dset m e.1 e.2) []

/-- The value a last-write-wins map stores for a name: the value of the last
event of that name in the segment. -/
def lastValue (seg : List Event) (n : String) : Option ℤ :=
  (seg.reverse.find? (fun e => decide (e.1 = n))).map Prod.snd

/-- True when the stream starts with an event that is not a boundary marker,
i.e. when events precede the first marker. -/
def hasPre : List Event → Bool
  | [] => false
  | e :: _ => decide (¬(e.1 = startEvent))

/-- Derived phase durations of one run row (fields in row order of the source:
totalDurationMs, phase1FileAnalysisMs, phase2HashProcessingMs,
phase3UIRenderingMs). -/
structure PhaseRow where
  totalDurationMs : Option ℤ
  phase1FileAnalysisMs : Option ℤ
  phase2HashProcessingMs : Option ℤ
  phase3UIRenderingMs : Option ℤ
deriving DecidableEq

/-- Phase-duration derivation of `parse_timing_data`,
src/docs/plans/Bookkeeper/speed_tests/parse_console_log.py lines 153-175
(identical in improved_parser_json.py lines 113-121): `PROCESSING_START` is
read with `data.get('PROCESSING_START', 0)` (default 0), the other three
timestamps with a plain `get` (default `None`); each duration is computed only
under the `is not None` tests the source performs. -/
def computePhases (data : List (String × ℤ)) : PhaseRow :=
  let processing_start : ℤ := (dget data "PROCESSING_START").getD 0
  let deduplication_start := dget data "DEDUPLICATION_START"
  let ui_update_start := dget data "UI_UPDATE_START"
  let all_files_displayed := dget data "ALL_FILES_DISPLAYED"
  let phase1 : Option ℤ := match deduplication_start with
    | some d => some (d - processing_start)
    | none => none
  let phase2 : Option ℤ := match ui_update_start, deduplication_start with
    | some u, some d => some (u - d)
    | _, _ => none
  let phase3 : Option ℤ := match all_files_displayed, ui_update_start with
    | some a, some u => some (a - u)
    | _, _ => none
  let total : Option ℤ := match all_files_displayed with
    | some a => some (a - processing_start)
    | none => none
  ⟨total, phase1, phase2, phase3⟩

/-- Phase-duration derivation of `parse_trial5_data`,
src/docs/speed_tests/trial5_parser.py lines 63-72: every timestamp is read with
`data.get(name, 0)` (absent coerced to 0), and each duration is
`end - start if end >= start else None`. -/
def trial5Phases (data : List (String × ℤ)) : PhaseRow :=
  let start : ℤ := (dget data "PROCESSING_START").getD 0
  let dedup_start : ℤ := (dget data "DEDUPLICATION_START").getD 0
  let ui_start : ℤ := (dget data "UI_UPDATE_START").getD 0
  let endTs : ℤ := (dget data "ALL_FILES_DISPLAYED").getD 0
  let phase1 : Option ℤ := if start ≤ dedup_start then some (dedup_start - start) else none
  let phase2 : Option ℤ := if dedup_start ≤ ui_start then some (ui_start - dedup_start) else none
  let phase3 : Option ℤ := if ui_start ≤ endTs then some (endTs - ui_start) else none
  let total : Option ℤ := if start ≤ endTs then some (endTs - start) else none
  ⟨total, phase1, phase2, phase3⟩

/-- Model of `csv.DictWriter._dict_to_list` with the defaults the scripts use
(`extrasaction = 'raise'`, `restval = None`): a record key outside `fieldnames`
raises `ValueError`; otherwise one cell per field name, `rowdict.get(key,
None)`, with `none` rendered as the empty cell by the underlying writer. -/
def dict_to_list {α : Type} (fieldnames : List String) (rowdict : List (String × α)) :
    Except Unit (List (Option α)) :=
  if (rowdict.map Prod.fst).all (fun k => fieldnames.contains k) then
    Except.ok (fieldnames.map (fun f => dget rowdict f))
  else Except.error ()

/-- Model of `DictWriter.writerows`: rows are converted and written in order;
a `ValueError` from one record stops the loop, the rows already written stay
written.  Returns (rows written, whether an exception was raised). -/
def writerows {α : Type} (fieldnames : List String) : List (List (String × α)) →
    List (List (Option α)) × Bool
  | [] => ([], false)
  | r :: rest =>
    match dict_to_list fieldnames r with
    | Except.ok cells =>
      let out := writerows fieldnames rest
      (cells :: out.1, out.2)
    | Except.error _ => ([], true)

/-- Model of `write_csv` (src/docs/plans/Bookkeeper/speed_tests/parse_console_log.py
lines 197-202, same helper in the other scripts): `writeheader` emits the field
names themselves as the first row, then `writerows` the records. -/
def write_csv {α : Type} (data : List (List (String × α))) (fieldnames : List String) :
    List String × (List (List (Option α)) × Bool) :=
  (fieldnames, writerows fieldnames data)

/-- Exit-code behaviour of `main` in
src/docs/plans/Bookkeeper/speed_tests/parse_console_log.py lines 205-214 (and
identically improved_parser_json.py): `sys.exit(1)` when `len(sys.argv) != 2`,
`sys.exit(1)` when the input file does not exist, implicit exit code 0
otherwise. -/
def parse_console_log_main (argc : ℕ) (fileExists : Bool) : ℕ :=
  if argc ≠ 2 then 1
  else if ¬fileExists then 1
  else 0

/-- Exit-code behaviour of `main` in src/docs/speed_tests/trial5_parser.py
lines 168-177: the input filename is hard-coded (no argument validation), and
when the file is missing the function prints an error and plain-`return`s —
the process still exits with code 0. -/
def trial5_main (fileExists : Bool) : ℕ :=
  if ¬fileExists then 0 else 0

/-! Character-level model of the per-field regular expressions.  The patterns
have the shape `name:\s*(\d+)` or `name:\s*([\d.]+)` and are applied with
`re.search`, i.e. the leftmost full match wins.  `\s` is modelled by its ASCII
part (the blobs contain no exotic whitespace) and `\d` by the ASCII digits. -/

/-- ASCII fragment of the `\s` character class of Python `re`. -/
def pySpace (c : Char) : Bool :=
  c = ' ' || c = '\t' || c = '\n' || c = '\r' || c = '\x0b' || c = '\x0c'

/-- The character class of the numeric capture group: `\d` for integer fields,
`[\d.]` for float fields. -/
def numClass (isFloat : Bool) (c : Char) : Bool :=
  c.isDigit || (isFloat && c = '.')

/-- Drop a literal pattern from the front of the text, `none` when the text
does not start with it. -/
def dropLit : List Char → List Char → Option (List Char)
  | [], s => some s
  | _ :: _, [] => none
  | p :: ps, c :: cs => if c = p then dropLit ps cs else none

/-- Attempt the regex `pat\s*(cls+)` anchored at the start of `s`; on success
return the captured group (the maximal run of class characters, which must be
nonempty).  Greediness of `\s*` is harmless here because a class character is
never a space. -/
def tryFieldAt (pat : List Char) (isFloat : Bool) (s : List Char) : Option (List Char) :=
  (dropLit pat s).bind (fun r =>
    let g := (r.dropWhile pySpace).takeWhile (numClass isFloat)
    if g.isEmpty then none else some g)

/-- Model of `re.search(pat + r':\s*(...)', text).group(1)`: scan left to
right, return the capture of the first position where the whole pattern
matches.  `pat` is always nonempty (a field name followed by a colon), so the
empty text never matches. -/
def reSearchField (pat : List Char) (isFloat : Bool) : List Char → Option (List Char)
  | [] => none
  | c :: rest =>
    match tryFieldAt pat isFloat (c :: rest) with
    | some g => some g
    | none => reSearchField pat isFloat rest

/-- Value of a decimal digit string (most significant first); used for both
`int()` and the integer/fraction parts of `float()`. -/
def digitsVal (s : List Char) : ℤ :=
  s.foldl (fun a c => a * 10 + ((c.toNat : ℤ) - 48)) 0

/-- Python `int()` applied to a `(\d+)` capture: always succeeds, decimal
value. -/
def pyInt (s : List Char) : ℤ := digitsVal s

/-- Python `float()` applied to a `([\d.]+)` capture.  Such a string is a
valid float literal iff it contains at most one dot and at least one digit
(e.g. `.` or `1.2.3` raise `ValueError`); the result is the float of the
exact decimal value — mantissa `digits of ip ++ fr`, shift `|fr|`. -/
def pyFloat (s : List Char) : Option PyVal :=
  let ip := s.takeWhile Char.isDigit
  match s.dropWhile Char.isDigit with
  | [] => if ip.isEmpty then none else some (PyVal.float (digitsVal ip) 0)
  | '.' :: fr =>
    if fr.all Char.isDigit && !(ip.isEmpty && fr.isEmpty) then
      some (PyVal.float (digitsVal (ip ++ fr)) fr.length)
    else none
  | _ => none

/-- The four float-typed fields of `parse_folder_analysis_data` in
src/docs/plans/Bookkeeper/speed_tests/parse_console_log.py: exactly these have
the `([\d.]+)` capture and the `float()` conversion; every other field uses
`(\d+)` and `int()`. -/
def plansFloatFields : List String :=
  ["totalSizeMB", "uniqueFilesSizeMB", "duplicateCandidatesSizeMB", "avgDirectoryDepth"]

/-- The field dictionary order of `parse_folder_analysis_data` (plans
version), lines 33-45. -/
def plansFields : List String :=
  ["timestamp", "totalFiles", "duplicateCandidateCount", "duplicateCandidatePercent",
   "uniqueFilesSizeMB", "duplicateCandidatesSizeMB", "totalSizeMB", "totalDirectoryCount",
   "maxDirectoryDepth", "uniqueFilesTotal", "avgDirectoryDepth"]

/-- Per-field extraction of `parse_folder_analysis_data` (plans version),
lines 47-57: search the field's pattern in the blob; on a match convert with
`float` or `int` according to the fixed field-name lists (`none` models the
`ValueError` that `float` raises on captures such as `.`); on no match the
source stores the Python integer 0 (`data[field] = 0`) for fields of either
declared type. -/
def plans_field_value (blob : List Char) (field : String) : Option PyVal :=
  let isF := plansFloatFields.contains field
  match reSearchField (field ++ ":").toList isF blob with
  | some g => if isF then pyFloat g else some (PyVal.int (pyInt g))
  | none => some (PyVal.int 0)

/-- The `data` dict built for one blob by the plans extractor; `none` when any
field's conversion raises (the `try` covers the whole loop, so one bad field
discards the record). -/
def plans_row_of_blob (blob : List Char) : Option (List (String × PyVal)) :=
  plansFields.mapM (fun f => (plans_field_value blob f).map (fun v => (f, v)))

/-- Float-typed fields of `extract_complete_folder_data` in
src/docs/speed_tests/improved_parser.py lines 36-41 and 49. -/
def improvedFloatFields : List String :=
  ["uniqueFilesSizeMB", "duplicateCandidatesSizeMB", "totalSizeMB", "avgDirectoryDepth"]

/-- Per-field extraction of `extract_complete_folder_data`
(src/docs/speed_tests/improved_parser.py lines 45-56): like the plans version
but the default for an absent field is typed — the Python integer 0 for count
fields and the Python float 0.0 for size/depth fields.  This function has no
surrounding `try`, so a `ValueError` from `float()` (modelled by `none`)
propagates. -/
def improved_field_value (blob : List Char) (field : String) : Option PyVal :=
  let isF := improvedFloatFields.contains field
  match reSearchField (field ++ ":").toList isF blob with
  | some g => if isF then pyFloat g else some (PyVal.int (pyInt g))
  | none => some (if isF then PyVal.float 0 1 else PyVal.int 0)

/-- Round-half-to-even of the exact fraction `a / b` (with `b > 0`), as
Python's `round` does on the abstract decimal value.  (On binary doubles
Python can round an apparent half in either direction because the stored
value is not exactly the printed decimal; the scripts' claims never depend on
that artifact.) -/
def pyRoundHalfEven (a b : ℤ) : ℤ :=
  let q := a.ediv b
  let r := a.emod b
  if 2 * r < b then q
  else if b < 2 * r then q + 1
  else if q.emod 2 = 0 then q else q + 1

/-- Python `round(x, 2)` of the exact fraction `num / den` (`den > 0`): the
result is a float with two decimal places. -/
def roundTo2 (num den : ℤ) : PyVal :=
  PyVal.float (pyRoundHalfEven (num * 100) den) 2

/-- Mantissa/shift reading of a numeric value for float arithmetic: an `int n`
contributes the exact value `n` (shift 0). -/
def floatParts : PyVal → ℤ × ℕ
  | PyVal.int n => (n, 0)
  | PyVal.float m s => (m, s)

/-- Integer reading of a field that is `int`-typed in the source (used for the
count fields of the docs extractor, which are always `PyVal.int`). -/
def pyValZ : PyVal → ℤ
  | PyVal.int n => n
  | PyVal.float m s => m.ediv ((10 : ℤ) ^ s)

/-- Fields of `parse_folder_analysis_data` in
src/docs/speed_tests/parse_console_log.py lines 32-38; only `totalSizeMB` is
float-typed. -/
def docsFields : List String :=
  ["timestamp", "totalFiles", "mainFolderFiles", "subfolderFiles", "totalSizeMB"]

/-- Per-field extraction of the docs key:value extractor, lines 40-50: same
shape as the plans version (absent fields default to the Python integer 0). -/
def docs_field_value (blob : List Char) (field : String) : Option PyVal :=
  let isF := field = "totalSizeMB"
  match reSearchField (field ++ ":").toList isF blob with
  | some g => if isF then pyFloat g else some (PyVal.int (pyInt g))
  | none => some (PyVal.int 0)

/-- Record construction of the docs key:value extractor
(src/docs/speed_tests/parse_console_log.py lines 52-80).  Besides copying the
five extracted fields it emits derived/estimated fields: `avgDirectoryDepth`
is 2.5 or 1.0 by a subfolder heuristic, `avgFilenameLength` is the constant
25, `maxDirectoryDepth` is 5 or 1, `largestFileSizesMB` is 10% of
`totalSizeMB`, `zeroByteFiles` is 0 — none of them read from the blob.
Returns `none` when a field conversion raises (the `try` covers the loop). -/
def docs_row_of_blob (blob : List Char) : Option (List (String × PyVal)) :=
  (docsFields.mapM (fun f => (docs_field_value blob f).map (fun v => (f, v)))).map
    (fun data =>
      let tf : ℤ := pyValZ ((dget data "totalFiles").getD (PyVal.int 0))
      let mf : ℤ := pyValZ ((dget data "mainFolderFiles").getD (PyVal.int 0))
      let sf : ℤ := pyValZ ((dget data "subfolderFiles").getD (PyVal.int 0))
      let ts := floatParts ((dget data "totalSizeMB").getD (PyVal.int 0))
      let unique_files_main_folder : ℤ := mf
      let unique_files_total : ℤ := tf - max 0 (tf - mf - sf)
      let avg_directory_depth : PyVal :=
        if 0 < sf then PyVal.float 25 1 else PyVal.float 10 1
      let avg_filename_length : ℤ := 25
      let max_directory_depth : ℤ := if 0 < sf then 5 else 1
      let zero_byte_files : ℤ := 0
      let largest_file_size_mb : PyVal := roundTo2 ts.1 ((10 : ℤ) ^ ts.2 * 10)
      let main_folder_size_mb : PyVal :=
        if 0 < tf then roundTo2 (ts.1 * mf) ((10 : ℤ) ^ ts.2 * tf) else PyVal.int 0
      let identical_size_files : ℤ := max 0 (tf - unique_files_total)
      [("avgDirectoryDepth", avg_directory_depth),
       ("avgFilenameLength", PyVal.int avg_filename_length),
       ("identicalSizeFiles", PyVal.int identical_size_files),
       ("largestFileSizesMB", largest_file_size_mb),
       ("mainFolderFiles", (dget data "mainFolderFiles").getD (PyVal.int 0)),
       ("mainFolderSizeMB", main_folder_size_mb),
       ("maxDirectoryDepth", PyVal.int max_directory_depth),
       ("subfolderFiles", (dget data "subfolderFiles").getD (PyVal.int 0)),
       ("timestamp", (dget data "timestamp").getD (PyVal.int 0)),
       ("totalFiles", (dget data "totalFiles").getD (PyVal.int 0)),
       ("totalSizeMB", (dget data "totalSizeMB").getD (PyVal.int 0)),
       ("uniqueFilesMainFolder", PyVal.int unique_files_main_folder),
       ("uniqueFilesTotal", PyVal.int unique_files_total),
       ("zeroByteFiles", PyVal.int zero_byte_files)])

/-! Model of `json.loads` on the blobs captured for `FOLDER_ANALYSIS_DATA`:
flat objects whose values are JSON numbers.  The regex capture stops at the
first closing brace, so a nested structure is truncated and malformed for
Python too.  JSON value forms outside this subset (strings with escapes,
arrays, booleans, nested objects) are outside the model and parse to `none`. -/

/-- JSON insignificant whitespace. -/
def jsonWs (c : Char) : Bool :=
  c = ' ' || c = '\t' || c = '\n' || c = '\r'

/-- Exponent digits of a JSON number after `e`/`E`: optional sign then at
least one digit. -/
def jsonExpTail (r : List Char) : Option (Option ℤ × List Char) :=
  let sgnRest : Bool × List Char := match r with
    | '+' :: t => (false, t)
    | '-' :: t => (true, t)
    | _ => (false, r)
  let ds := sgnRest.2.takeWhile Char.isDigit
  if ds.isEmpty then none
  else some (some (if sgnRest.1 then -(digitsVal ds) else digitsVal ds),
             sgnRest.2.dropWhile Char.isDigit)

/-- Parse a JSON number (RFC 8259 grammar: optional minus, `0` or a
non-zero-led digit run, optional fraction, optional exponent).  Returns the
Python value — `int` when there is neither fraction nor exponent, else
`float` — and the unconsumed rest. -/
def jsonNumber (s : List Char) : Option (PyVal × List Char) :=
  let negRest : Bool × List Char := match s with
    | '-' :: r => (true, r)
    | _ => (false, s)
  let neg := negRest.1
  let s1 := negRest.2
  let ip := s1.takeWhile Char.isDigit
  let r1 := s1.dropWhile Char.isDigit
  if ip.isEmpty then none
  else if 1 < ip.length && ip.headD '0' = '0' then none
  else
    let ipv : ℤ := digitsVal ip
    let frRest : Option (List Char × List Char) := match r1 with
      | '.' :: r2 =>
        let fr := r2.takeWhile Char.isDigit
        if fr.isEmpty then none else some (fr, r2.dropWhile Char.isDigit)
      | _ => some ([], r1)
    match frRest with
    | none => none
    | some (fr, r3) =>
      let expRest : Option (Option ℤ × List Char) := match r3 with
        | 'e' :: r4 => jsonExpTail r4
        | 'E' :: r4 => jsonExpTail r4
        | _ => some (none, r3)
      match expRest with
      | none => none
      | some (ex, r5) =>
        let mant : ℤ := digitsVal (ip ++ fr)
        let signedMant : ℤ := if neg then -mant else mant
        let net : ℤ := ex.getD 0 - (fr.length : ℤ)
        if fr.isEmpty ∧ ex = none then
          some (PyVal.int (if neg then -ipv else ipv), r5)
        else if 0 ≤ net then
          some (PyVal.float (signedMant * (10 : ℤ) ^ net.toNat) 0, r5)
        else
          some (PyVal.float signedMant (-net).toNat, r5)

/-- Parse a JSON string used as an object key.  Escape sequences are outside
the model (the metric field names never contain them). -/
def jsonKey (s : List Char) : Option (String × List Char) :=
  match s with
  | '"' :: r =>
    let key := r.takeWhile (fun c => c ≠ '"' && c ≠ '\\')
    (match r.dropWhile (fun c => c ≠ '"' && c ≠ '\\') with
     | '"' :: rest => some (String.mk key, rest)
     | _ => none)
  | _ => none

/-- Parse the members of a JSON object after the opening brace, accumulating
into a dict (a duplicated key overwrites, as in a Python dict).  Fueled
recursion; the fuel is instantiated with more than the text length. -/
def jsonMembers : ℕ → List (String × PyVal) → List Char →
    Option (List (String × PyVal) × List Char)
  | 0, _, _ => none
  | fuel + 1, acc, s =>
    (jsonKey (s.dropWhile jsonWs)).bind (fun kr =>
      match (kr.2.dropWhile jsonWs) with
      | ':' :: r2 =>
        (jsonNumber (r2.dropWhile jsonWs)).bind (fun vr =>
          let acc2 := dset acc kr.1 vr.1
          match (vr.2.dropWhile jsonWs) with
          | ',' :: r4 => jsonMembers fuel acc2 r4
          | '\x7d' :: r5 => some (acc2, r5)
          | _ => none)
      | _ => none)

/-- Model of `json.loads` restricted to flat numeric objects: the whole text
must be one object with nothing but whitespace around it. -/
def jsonParse (s : List Char) : Option (List (String × PyVal)) :=
  match s.dropWhile jsonWs with
  | '\x7b' :: r =>
    (match r.dropWhile jsonWs with
     | '\x7d' :: r2 => if (r2.dropWhile jsonWs).isEmpty then some [] else none
     | _ =>
       (jsonMembers (s.length + 1) [] r).bind (fun objRest =>
         if (objRest.2.dropWhile jsonWs).isEmpty then some objRest.1 else none))
  | _ => none

/-- Row fields and their defaults in `parse_json_folder_analysis_data`
(src/docs/plans/Bookkeeper/speed_tests/improved_parser_json.py lines 35-53):
each row entry is `data.get(field, default)` with the integer default 0 for
count fields and the float default 0.0 for size/depth fields. -/
def json_row_fields : List (String × PyVal) :=
  [("timestamp", PyVal.int 0), ("totalFiles", PyVal.int 0),
   ("duplicateCandidateCount", PyVal.int 0), ("duplicateCandidatePercent", PyVal.int 0),
   ("uniqueFilesSizeMB", PyVal.float 0 1), ("duplicateCandidatesSizeMB", PyVal.float 0 1),
   ("totalSizeMB", PyVal.float 0 1), ("totalDirectoryCount", PyVal.int 0),
   ("avgDirectoryDepth", PyVal.float 0 1), ("maxDirectoryDepth", PyVal.int 0),
   ("uniqueFilesTotal", PyVal.int 0), ("maxFileDepth", PyVal.int 0),
   ("avgFileDepth", PyVal.float 0 1), ("avgFilenameLength", PyVal.float 0 1),
   ("zeroByteFiles", PyVal.int 0), ("largestFileSizesMB", PyVal.float 0 1)]

/-- The row built for one decodable JSON blob, `none` on a
`json.JSONDecodeError` (caught by the source's `except`). -/
def json_row_of_blob (blob : List Char) : Option (List (String × PyVal)) :=
  (jsonParse blob).map (fun obj =>
    json_row_fields.map (fun kv => (kv.1, (dget obj kv.1).getD kv.2)))

/-- The shared shape of the three folder-extractor loops
(parse_folder_analysis_data, parse_json_folder_analysis_data and the docs
variant): walk the captured blobs with `test_run` starting at 1; a blob whose
row construction succeeds is appended with `'TestRun#': test_run` prepended
and the counter incremented; a blob whose construction raises prints one
warning, is skipped, and leaves the counter unchanged.  Returns the record
list and the number of warnings printed. -/
def folder_go (rowOf : List Char → Option (List (String × PyVal))) :
    List (List Char) → ℕ → List (List (String × PyVal)) × ℕ
  | [], _ => ([], 0)
  | b :: rest, t =>
    match rowOf b with
    | some d =>
      let r := folder_go rowOf rest (t + 1)
      ((("TestRun#", PyVal.int (t : ℤ)) :: d) :: r.1, r.2)
    | none =>
      let r := folder_go rowOf rest t
      (r.1, r.2 + 1)

/-- `parse_folder_analysis_data` of
src/docs/plans/Bookkeeper/speed_tests/parse_console_log.py lines 20-83, on the
captured blob texts. -/
def parse_folder_analysis_data (blobs : List (List Char)) :
    List (List (String × PyVal)) × ℕ :=
  folder_go plans_row_of_blob blobs 1

/-- `parse_json_folder_analysis_data` of
src/docs/plans/Bookkeeper/speed_tests/improved_parser_json.py lines 18-65, on
the captured blob texts. -/
def parse_json_folder_analysis_data (blobs : List (List Char)) :
    List (List (String × PyVal)) × ℕ :=
  folder_go json_row_of_blob blobs 1

/-- `parse_folder_analysis_data` of src/docs/speed_tests/parse_console_log.py
lines 20-88, on the captured blob texts. -/
def parse_folder_analysis_data_docs (blobs : List (List Char)) :
    List (List (String × PyVal)) × ℕ :=
  folder_go docs_row_of_blob blobs 1

/-- Reference numbering used to state the run-index invariant: prepend
`'TestRun#': t, t+1, ...` to a list of already-built rows. -/
def numberedFrom (t : ℕ) : List (List (String × PyVal)) → List (List (String × PyVal))
  | [] => []
  | d :: ds => (("TestRun#", PyVal.int (t : ℤ)) :: d) :: numberedFrom (t + 1) ds

/-- Encode a known flat object (field name, numeral text) as the JSON text the
application logs behind the sentinel marker: exactly the text
`json.dumps`/`JSON.stringify` produce for it. -/
def encodeJsonBlob (kvs : List (String × String)) : List Char :=
  ("\x7b" ++ String.intercalate ", " (kvs.map (fun kv => "\"" ++ kv.1 ++ "\": " ++ kv.2)) ++ "\x7d").toList

/-! ### Dictionary lemmas -/

theorem dget_nil {κ α : Type} [DecidableEq κ] (k : κ) : dget ([] : List (κ × α)) k = none := rfl

theorem dget_cons {κ α : Type} [DecidableEq κ] (p : κ × α) (rest : List (κ × α)) (k : κ) :
    dget (p :: rest) k = if p.1 = k then some p.2 else dget rest k := rfl

theorem dget_dset {κ α : Type} [DecidableEq κ] (m : List (κ × α)) (k q : κ) (v : α) :
    dget (dset m k v) q = if q = k then some v else dget m q := by
  induction m with
  | nil =>
    by_cases h : q = k
    · subst h; simp [dset, dget_cons]
    · simp [dset, dget_cons, dget_nil, h, Ne.symm h]
  | cons p rest ih =>
    by_cases hp : p.1 = k
    · subst hp
      by_cases hq : q = p.1
      · subst hq; simp [dset, dget_cons]
      · simp [dset, dget_cons, hq, Ne.symm hq]
    · simp only [dset, if_neg hp]
      by_cases hq : q = k
      · subst hq
        simp [dget_cons, ih, fun h => hp h]
      · simp [dget_cons, hq, ih]

theorem keys_dset {κ α : Type} [DecidableEq κ] (m : List (κ × α)) (k : κ) (v : α) :
    (dset m k v).map Prod.fst =
      if (dget m k).isSome then m.map Prod.fst else m.map Prod.fst ++ [k] := by
  induction m with
  | nil => simp [dset, dget_nil]
  | cons p rest ih =>
    by_cases hp : p.1 = k
    · subst hp
      simp [dset, dget_cons]
    · simp only [dset, if_neg hp, dget_cons, List.map_cons]
      rw [ih]
      by_cases hs : (dget rest k).isSome <;> simp [hs]

/-! ### Timing-extractor lemmas.  The grouping loops are folds; all facts are
proved by induction on the event list from the right, using the
characterisation of the events of run `k` given by `runEventsFrom`. -/

theorem countStart_append (a b : List Event) :
    countStart (a ++ b) = countStart a + countStart b := by
  simp [countStart, List.countP_append]

theorem countStart_cons (e : Event) (rest : List Event) :
    countStart (e :: rest) = countStart rest + (if e.1 = startEvent then 1 else 0) := by
  by_cases hb : e.1 = startEvent <;> simp [countStart, List.countP_cons, hb]

theorem timingFold_fst (evs : List Event) (st : ℕ × List (ℕ × List (String × ℤ))) :
    (evs.foldl timingStep st).1 = st.1 + countStart evs := by
  induction evs generalizing st with
  | nil => simp [countStart]
  | cons e rest ih =>
    rw [List.foldl_cons, ih, countStart_cons]
    by_cases hb : e.1 = startEvent <;> simp [timingStep, hb] <;> omega

theorem timingFoldDocs_fst (evs : List Event) (st : ℕ × List (ℕ × List (String × ℤ))) :
    (evs.foldl timingStepDocs st).1 = st.1 + countStart evs := by
  induction evs generalizing st with
  | nil => simp [countStart]
  | cons e rest ih =>
    rw [List.foldl_cons, ih, countStart_cons]
    by_cases hb : e.1 = startEvent <;> simp [timingStepDocs, hb] <;> omega

theorem runEventsFrom_append (c k : ℕ) (xs ys : List Event) :
    runEventsFrom c k (xs ++ ys) =
      runEventsFrom c k xs ++ runEventsFrom (c + countStart xs) k ys := by
  induction xs generalizing c with
  | nil => simp [runEventsFrom, countStart]
  | cons e rest ih =>
    by_cases hb : e.1 = startEvent
    · have h2 : c + countStart (e :: rest) = c + 1 + countStart rest := by
        rw [countStart_cons, if_pos hb]; omega
      rw [h2]
      simp [runEventsFrom, hb, ih, List.append_assoc]
    · have h2 : c + countStart (e :: rest) = c + countStart rest := by
        rw [countStart_cons, if_neg hb]
        omega
      rw [h2]
      simp [runEventsFrom, hb, ih, List.append_assoc]

theorem runEventsFrom_single (c k : ℕ) (e : Event) :
    runEventsFrom c k [e] =
      if (if e.1 = startEvent then c + 1 else c) = k then [e] else [] := by
  by_cases hb : e.1 = startEvent <;> simp [runEventsFrom, hb]

theorem runEventsFrom_high (c k : ℕ) (xs : List Event) (h : c + countStart xs < k) :
    runEventsFrom c k xs = [] := by
  induction xs generalizing c with
  | nil => simp [runEventsFrom]
  | cons e rest ih =>
    rw [countStart_cons] at h
    by_cases hb : e.1 = startEvent
    · rw [if_pos hb] at h
      have h2 : c + 1 + countStart rest < k := by omega
      simp [runEventsFrom, hb, ih (c + 1) h2]
      omega
    · rw [if_neg hb] at h
      have h2 : c + countStart rest < k := by omega
      simp [runEventsFrom, hb, ih c h2]
      omega

theorem runEventsFrom_stable (k : ℕ) (xs : List Event) (h : countStart xs = 0) :
    runEventsFrom k k xs = xs := by
  induction xs with
  | nil => simp [runEventsFrom]
  | cons e rest ih =>
    rw [countStart_cons] at h
    have hb : ¬(e.1 = startEvent) := by
      intro hb
      rw [if_pos hb] at h
      omega
    have hr : countStart rest = 0 := by
      rw [if_neg hb] at h
      omega
    simp [runEventsFrom, hb, ih hr]

theorem lastMap_append_single (l : List Event) (e : Event) :
    lastMap (l ++ [e]) = dset (lastMap l) e.1 e.2 := by
  simp [lastMap, List.foldl_append]

theorem dget_lastMap (l : List Event) (n : String) :
    dget (lastMap l) n = lastValue l n := by
  induction l using List.reverseRecOn with
  | nil => simp [lastMap, lastValue, dget_nil]
  | append_singleton xs e ih =>
    rw [lastMap_append_single, dget_dset]
    by_cases h : n = e.1
    · subst h
      simp [lastValue]
    · rw [if_neg h, ih]
      have hpred : (e.1 = n) = False := by
        simp
        exact fun h2 => h h2.symm
      simp [lastValue, hpred]

/-- Master characterisation of the grouping loop of the plans/json
`parse_timing_data`: run `k` exists iff `1 ≤ k ≤ N`, `N` the number of
boundary markers in the event stream, and its stored event map is the
last-write-wins fold of exactly the events attributed to run `k`. -/
theorem timing_groups_dget (evs : List Event) : ∀ k : ℕ,
    dget (parse_timing_data_groups evs) k =
      if 1 ≤ k ∧ k ≤ countStart evs then some (lastMap (runEventsFrom 0 k evs))
      else none := by
  induction evs using List.reverseRecOn with
  | nil =>
    intro k
    have hcond : ¬(1 ≤ k ∧ k ≤ countStart []) := by
      simp [countStart]
      omega
    simp [parse_timing_data_groups, dget_nil, hcond]
  | append_singleton xs e ih =>
    intro k
    have hfold : parse_timing_data_groups (xs ++ [e]) =
        (timingStep (List.foldl timingStep (0, []) xs) e).2 := by
      rw [parse_timing_data_groups, List.foldl_append, List.foldl_cons, List.foldl_nil]
    have hs1 : (List.foldl timingStep (0, []) xs).1 = countStart xs := by
      simpa using timingFold_fst xs (0, [])
    have hg : (List.foldl timingStep (0, []) xs).2 = parse_timing_data_groups xs := rfl
    have hrun : runEventsFrom 0 k (xs ++ [e]) =
        runEventsFrom 0 k xs ++
          (if (if e.1 = startEvent then countStart xs + 1 else countStart xs) = k
           then [e] else []) := by
      rw [runEventsFrom_append, runEventsFrom_single]
      simp
    by_cases hb : e.1 = startEvent
    · have hN : countStart (xs ++ [e]) = countStart xs + 1 := by
        rw [countStart_append, countStart_cons]
        simp [countStart, hb]
      have hnew : dget (parse_timing_data_groups xs) (countStart xs + 1) = none := by
        rw [ih]
        exact if_neg (by omega)
      have hstep : (timingStep (List.foldl timingStep (0, []) xs) e).2 =
          dset (parse_timing_data_groups xs) (countStart xs + 1)
            (dset ((dget (parse_timing_data_groups xs) (countStart xs + 1)).getD [])
              e.1 e.2) := by
        simp only [timingStep, hb, if_pos rfl, hs1, hg, Nat.succ_pos, if_true]
      rw [hfold, hstep, hnew, dget_dset, hN, hrun]
      by_cases hk : k = countStart xs + 1
      · have hemp : runEventsFrom 0 k xs = [] :=
          runEventsFrom_high 0 k xs (by omega)
        rw [if_pos hk, if_pos (by omega), hemp]
        simp [hb, hk, lastMap, dset]
      · rw [if_neg hk, ih]
        have happ : (if (if e.1 = startEvent then countStart xs + 1 else countStart xs) = k
            then [e] else ([] : List Event)) = [] := by
          rw [if_pos hb]
          exact if_neg (fun h2 => hk h2.symm)
        rw [happ, List.append_nil]
        by_cases hk2 : 1 ≤ k ∧ k ≤ countStart xs
        · rw [if_pos hk2, if_pos (by omega)]
        · rw [if_neg hk2, if_neg (by omega)]
    · have hN : countStart (xs ++ [e]) = countStart xs := by
        rw [countStart_append, countStart_cons]
        simp [countStart, hb]
      have happ : (if (if e.1 = startEvent then countStart xs + 1 else countStart xs) = k
          then [e] else ([] : List Event)) =
          (if countStart xs = k then [e] else []) := by
        rw [if_neg hb]
      by_cases hz : 0 < countStart xs
      · have hcur : dget (parse_timing_data_groups xs) (countStart xs) =
            some (lastMap (runEventsFrom 0 (countStart xs) xs)) := by
          rw [ih]
          exact if_pos ⟨by omega, le_refl _⟩
        have hstep : (timingStep (List.foldl timingStep (0, []) xs) e).2 =
            dset (parse_timing_data_groups xs) (countStart xs)
              (lastMap (runEventsFrom 0 (countStart xs) xs ++ [e])) := by
          simp only [timingStep, if_neg hb, hs1, hg]
          rw [if_pos hz, hcur, Option.getD_some, lastMap_append_single]
        rw [hfold, hstep, dget_dset, hN, hrun, happ]
        by_cases hk : k = countStart xs
        · subst hk
          rw [if_pos rfl, if_pos ⟨by omega, le_refl _⟩, if_pos rfl]
        · rw [if_neg hk, ih]
          have h3 : (if countStart xs = k then [e] else ([] : List Event)) = [] :=
            if_neg (fun h2 => hk h2.symm)
          rw [h3, List.append_nil]
      · have hz0 : countStart xs = 0 := by omega
        have hstep : (timingStep (List.foldl timingStep (0, []) xs) e).2 =
            parse_timing_data_groups xs := by
          simp only [timingStep, if_neg hb, hs1, hg, hz0]
          simp
        rw [hfold, hstep, ih, hN]
        rw [if_neg (by omega), if_neg (by omega)]

/-- The groups of the plans/json timing extractor are keyed exactly
`1, 2, ..., N` in insertion order, `N` the number of boundary markers. -/
theorem timing_groups_keys (evs : List Event) :
    (parse_timing_data_groups evs).map Prod.fst = List.range' 1 (countStart evs) := by
  induction evs using List.reverseRecOn with
  | nil => simp [parse_timing_data_groups, countStart]
  | append_singleton xs e ih =>
    have hfold : parse_timing_data_groups (xs ++ [e]) =
        (timingStep (List.foldl timingStep (0, []) xs) e).2 := by
      rw [parse_timing_data_groups, List.foldl_append, List.foldl_cons, List.foldl_nil]
    have hs1 : (List.foldl timingStep (0, []) xs).1 = countStart xs := by
      simpa using timingFold_fst xs (0, [])
    have hg : (List.foldl timingStep (0, []) xs).2 = parse_timing_data_groups xs := rfl
    by_cases hb : e.1 = startEvent
    · have hN : countStart (xs ++ [e]) = countStart xs + 1 := by
        rw [countStart_append, countStart_cons]
        simp [countStart, hb]
      have hnew : dget (parse_timing_data_groups xs) (countStart xs + 1) = none := by
        rw [timing_groups_dget]
        exact if_neg (by omega)
      have hstep : (timingStep (List.foldl timingStep (0, []) xs) e).2 =
          dset (parse_timing_data_groups xs) (countStart xs + 1)
            (dset ((dget (parse_timing_data_groups xs) (countStart xs + 1)).getD [])
              e.1 e.2) := by
        simp only [timingStep, hb, if_pos rfl, hs1, hg, Nat.succ_pos, if_true]
      rw [hfold, hstep, keys_dset, hnew, hN]
      simp only [Option.isSome_none, Bool.false_eq_true, if_false]
      rw [ih, List.range'_1_concat, Nat.add_comm 1 (countStart xs)]
    · have hN : countStart (xs ++ [e]) = countStart xs := by
        rw [countStart_append, countStart_cons]
        simp [countStart, hb]
      by_cases hz : 0 < countStart xs
      · have hcur : (dget (parse_timing_data_groups xs) (countStart xs)).isSome := by
          rw [timing_groups_dget, if_pos ⟨by omega, le_refl _⟩]
          rfl
        have hstep : (timingStep (List.foldl timingStep (0, []) xs) e).2 =
            dset (parse_timing_data_groups xs) (countStart xs)
              (dset ((dget (parse_timing_data_groups xs) (countStart xs)).getD [])
                e.1 e.2) := by
          simp only [timingStep, if_neg hb, hs1, hg]
          rw [if_pos hz]
        rw [hfold, hstep, keys_dset, if_pos hcur, hN, ih]
      · have hz0 : countStart xs = 0 := by omega
        have hstep : (timingStep (List.foldl timingStep (0, []) xs) e).2 =
            parse_timing_data_groups xs := by
          simp only [timingStep, if_neg hb, hs1, hg, hz0]
          simp
        rw [hfold, hstep, hN, ih]

theorem runEventsFrom_nonempty (c k : ℕ) (xs : List Event) (h1 : c < k)
    (h2 : k ≤ c + countStart xs) : runEventsFrom c k xs ≠ [] := by
  induction xs generalizing c with
  | nil =>
    simp [countStart] at h2
    omega
  | cons e rest ih =>
    rw [countStart_cons] at h2
    by_cases hb : e.1 = startEvent
    · rw [if_pos hb] at h2
      by_cases hk : c + 1 = k
      · simp [runEventsFrom, hb, hk]
      · have hr := ih (c + 1) (by omega) (by omega)
        simp [runEventsFrom, hb, hk, hr]
    · rw [if_neg hb] at h2
      have hr := ih c (by omega) (by omega)
      simp [runEventsFrom, hb, hr]

/-- Empty map folds to the empty dict. -/
theorem lastMap_nil : lastMap [] = [] := rfl
/-- Master characterisation of the grouping loop of the docs
`parse_timing_data` (counter starting at 1, no positivity guard): run `k`
exists iff some event is attributed to it — in particular pre-marker events
are attributed to run 1 — and its stored event map is the last-write-wins fold
of those events. -/
theorem timing_groups_docs_dget (evs : List Event) : ∀ k : ℕ,
    dget (parse_timing_data_groups_docs evs) k =
      if runEventsFrom 1 k evs = [] then none
      else some (lastMap (runEventsFrom 1 k evs)) := by
  induction evs using List.reverseRecOn with
  | nil =>
    intro k
    simp [parse_timing_data_groups_docs, dget_nil, runEventsFrom]
  | append_singleton xs e ih =>
    intro k
    have hfold : parse_timing_data_groups_docs (xs ++ [e]) =
        (timingStepDocs (List.foldl timingStepDocs (1, []) xs) e).2 := by
      rw [parse_timing_data_groups_docs, List.foldl_append, List.foldl_cons, List.foldl_nil]
    have hs1 : (List.foldl timingStepDocs (1, []) xs).1 = 1 + countStart xs := by
      simpa using timingFoldDocs_fst xs (1, [])
    have hg : (List.foldl timingStepDocs (1, []) xs).2 =
        parse_timing_data_groups_docs xs := rfl
    have hrun : runEventsFrom 1 k (xs ++ [e]) =
        runEventsFrom 1 k xs ++
          (if (if e.1 = startEvent then 1 + countStart xs + 1 else 1 + countStart xs) = k
           then [e] else []) := by
      rw [runEventsFrom_append, runEventsFrom_single]
    by_cases hb : e.1 = startEvent
    · have hemp : runEventsFrom 1 (1 + countStart xs + 1) xs = [] :=
        runEventsFrom_high 1 (1 + countStart xs + 1) xs (by omega)
      have hold : dget (parse_timing_data_groups_docs xs) (1 + countStart xs + 1) = none := by
        rw [ih, if_pos hemp]
      have hstep : (timingStepDocs (List.foldl timingStepDocs (1, []) xs) e).2 =
          dset (parse_timing_data_groups_docs xs) (1 + countStart xs + 1)
            (dset ((dget (parse_timing_data_groups_docs xs)
              (1 + countStart xs + 1)).getD []) e.1 e.2) := by
        simp only [timingStepDocs, hb, if_true, hs1, hg]
      rw [hfold, hstep, hold, dget_dset, hrun]
      by_cases hk : k = 1 + countStart xs + 1
      · subst hk
        rw [hemp]
        simp [hb, lastMap, dset]
      · rw [if_neg hk, ih]
        have happ : (if (if e.1 = startEvent then 1 + countStart xs + 1
            else 1 + countStart xs) = k then [e] else ([] : List Event)) = [] := by
          rw [if_pos hb]
          exact if_neg (fun h2 => hk h2.symm)
        rw [happ, List.append_nil]
    · have hprev : ((dget (parse_timing_data_groups_docs xs) (1 + countStart xs)).getD []) =
          lastMap (runEventsFrom 1 (1 + countStart xs) xs) := by
        rw [ih]
        by_cases hemp : runEventsFrom 1 (1 + countStart xs) xs = []
        · rw [if_pos hemp, hemp, lastMap_nil]
          rfl
        · rw [if_neg hemp]
          rfl
      have hstep : (timingStepDocs (List.foldl timingStepDocs (1, []) xs) e).2 =
          dset (parse_timing_data_groups_docs xs) (1 + countStart xs)
            (lastMap (runEventsFrom 1 (1 + countStart xs) xs ++ [e])) := by
        simp only [timingStepDocs, if_neg hb, hs1, hg]
        rw [hprev, lastMap_append_single]
      rw [hfold, hstep, dget_dset, hrun]
      have happ : (if (if e.1 = startEvent then 1 + countStart xs + 1
          else 1 + countStart xs) = k then [e] else ([] : List Event)) =
          (if 1 + countStart xs = k then [e] else []) := by
        rw [if_neg hb]
      rw [happ]
      by_cases hk : k = 1 + countStart xs
      · subst hk
        simp
      · rw [if_neg hk, ih]
        have happ2 : (if 1 + countStart xs = k then [e] else ([] : List Event)) = [] :=
          if_neg (fun h2 => hk h2.symm)
        rw [happ2, List.append_nil]

/-- Keys of the docs timing extractor: group 1 exists exactly when events
precede the first boundary marker, and each of the `N` markers opens one of
the groups `2, ..., N + 1` — so the extractor yields `N + 1` groups whenever a
pre-marker event exists, and `N` groups otherwise. -/
theorem timing_groups_docs_keys (evs : List Event) :
    (parse_timing_data_groups_docs evs).map Prod.fst =
      (if hasPre evs then [1] else []) ++ List.range' 2 (countStart evs) := by
  induction evs using List.reverseRecOn with
  | nil => simp [parse_timing_data_groups_docs, countStart, hasPre]
  | append_singleton xs e ih =>
    have hfold : parse_timing_data_groups_docs (xs ++ [e]) =
        (timingStepDocs (List.foldl timingStepDocs (1, []) xs) e).2 := by
      rw [parse_timing_data_groups_docs, List.foldl_append, List.foldl_cons, List.foldl_nil]
    have hs1 : (List.foldl timingStepDocs (1, []) xs).1 = 1 + countStart xs := by
      simpa using timingFoldDocs_fst xs (1, [])
    have hg : (List.foldl timingStepDocs (1, []) xs).2 =
        parse_timing_data_groups_docs xs := rfl
    rcases xs with _ | ⟨f, ys⟩
    · by_cases hb : e.1 = startEvent
      · simp [hfold, timingStepDocs, parse_timing_data_groups_docs, hb, dget_nil, dset,
          hasPre, countStart_cons, countStart]
      · simp [hfold, timingStepDocs, parse_timing_data_groups_docs, hb, dget_nil, dset,
          hasPre, countStart_cons, countStart]
    · have hpre : hasPre (f :: ys ++ [e]) = hasPre (f :: ys) := rfl
      by_cases hb : e.1 = startEvent
      · have hN : countStart (f :: ys ++ [e]) = countStart (f :: ys) + 1 := by
          rw [countStart_append, countStart_cons (e := e), if_pos hb]
          simp [countStart]
        have hemp : runEventsFrom 1 (1 + countStart (f :: ys) + 1) (f :: ys) = [] :=
          runEventsFrom_high 1 (1 + countStart (f :: ys) + 1) (f :: ys) (by omega)
        have hold : dget (parse_timing_data_groups_docs (f :: ys))
            (1 + countStart (f :: ys) + 1) = none := by
          rw [timing_groups_docs_dget, if_pos hemp]
        have hstep : (timingStepDocs (List.foldl timingStepDocs (1, []) (f :: ys)) e).2 =
            dset (parse_timing_data_groups_docs (f :: ys)) (1 + countStart (f :: ys) + 1)
              (dset ((dget (parse_timing_data_groups_docs (f :: ys))
                (1 + countStart (f :: ys) + 1)).getD []) e.1 e.2) := by
          simp only [timingStepDocs, hb, if_true, hs1, hg]
        rw [hfold, hstep, keys_dset, hold]
        simp only [Option.isSome_none, Bool.false_eq_true, if_false]
        rw [ih, hpre, hN, List.range'_1_concat, ← List.append_assoc]
        have h2 : 1 + countStart (f :: ys) + 1 = 2 + countStart (f :: ys) := by omega
        rw [h2]
      · have hN : countStart (f :: ys ++ [e]) = countStart (f :: ys) := by
          rw [countStart_append, countStart_cons (e := e), if_neg hb]
          simp [countStart]
        have hne : runEventsFrom 1 (1 + countStart (f :: ys)) (f :: ys) ≠ [] := by
          by_cases hz : 0 < countStart (f :: ys)
          · exact runEventsFrom_nonempty 1 (1 + countStart (f :: ys)) (f :: ys)
              (by omega) (by omega)
          · have hz0 : countStart (f :: ys) = 0 := by omega
            rw [hz0, show 1 + 0 = 1 from rfl, runEventsFrom_stable 1 (f :: ys) hz0]
            simp
        have hcur : (dget (parse_timing_data_groups_docs (f :: ys))
            (1 + countStart (f :: ys))).isSome := by
          rw [timing_groups_docs_dget, if_neg hne]
          rfl
        have hstep : (timingStepDocs (List.foldl timingStepDocs (1, []) (f :: ys)) e).2 =
            dset (parse_timing_data_groups_docs (f :: ys)) (1 + countStart (f :: ys))
              (dset ((dget (parse_timing_data_groups_docs (f :: ys))
                (1 + countStart (f :: ys))).getD []) e.1 e.2) := by
          simp only [timingStepDocs, if_neg hb, hs1, hg]
        rw [hfold, hstep, keys_dset, if_pos hcur, ih, hpre, hN]

theorem runEventsFrom_low (c k : ℕ) (xs : List Event) (h : k < c) :
    runEventsFrom c k xs = [] := by
  induction xs generalizing c with
  | nil => simp [runEventsFrom]
  | cons e rest ih =>
    by_cases hb : e.1 = startEvent
    · simp [runEventsFrom, hb, ih (c + 1) (by omega)]
      omega
    · simp [runEventsFrom, hb, ih c h]
      omega

/-- Folding the grouping step over a boundary-free stream from the initial
state leaves the state untouched (plans version, counter 0): this is why
pre-marker events are discarded. -/
theorem timingFold_pre (pre : List Event) (h : countStart pre = 0) :
    List.foldl timingStep (0, []) pre = (0, []) := by
  induction pre with
  | nil => rfl
  | cons e rest ih =>
    rw [countStart_cons] at h
    have hb : ¬(e.1 = startEvent) := by
      intro hb
      rw [if_pos hb] at h
      omega
    have h0 : countStart rest = 0 := by
      rw [if_neg hb] at h
      omega
    rw [List.foldl_cons, show timingStep (0, []) e = (0, []) by simp [timingStep, hb], ih h0]

/-- The events of run `k` form the segment between the `k`-th and `(k+1)`-th
boundary markers (counter starting at `c0`): the marker itself plus every
event up to, but excluding, the next marker. -/
theorem runEventsFrom_segment (c0 : ℕ) (pre mid post : List Event) (v : ℤ)
    (hmid : countStart mid = 0)
    (hpost : post = [] ∨ ∃ w rest, post = (startEvent, w) :: rest) :
    runEventsFrom c0 (c0 + countStart pre + 1) (pre ++ (startEvent, v) :: mid ++ post) =
      (startEvent, v) :: mid := by
  have hpre : runEventsFrom c0 (c0 + countStart pre + 1) pre = [] :=
    runEventsFrom_high c0 (c0 + countStart pre + 1) pre (by omega)
  have hseg : runEventsFrom (c0 + countStart pre) (c0 + countStart pre + 1)
      ((startEvent, v) :: mid) = (startEvent, v) :: mid := by
    simp [runEventsFrom, runEventsFrom_stable _ mid hmid]
  have hcnt : c0 + countStart (pre ++ (startEvent, v) :: mid) = c0 + countStart pre + 1 := by
    rw [countStart_append, countStart_cons, hmid]
    simp [startEvent]
    omega
  have hpost0 : runEventsFrom (c0 + countStart pre + 1) (c0 + countStart pre + 1) post = [] := by
    rcases hpost with hnil | ⟨w, rest, hcons⟩
    · rw [hnil, runEventsFrom]
    · rw [hcons, runEventsFrom]
      simp only [startEvent, if_true]
      rw [if_neg (by omega), runEventsFrom_low _ _ rest (by omega)]
      rfl
  rw [runEventsFrom_append, runEventsFrom_append, hpre, List.nil_append, hseg, hcnt, hpost0,
    List.append_nil]

/-! ### Folder-extractor loop lemmas, generic in the per-blob row builder. -/

theorem folder_go_length (rowOf : List Char → Option (List (String × PyVal)))
    (blobs : List (List Char)) : ∀ t : ℕ,
    (folder_go rowOf blobs t).1.length = blobs.countP (fun b => (rowOf b).isSome) := by
  induction blobs with
  | nil => intro t; simp [folder_go]
  | cons b rest ih =>
    intro t
    cases hrb : rowOf b with
    | some d => simp [folder_go, hrb, List.countP_cons, ih]
    | none => simp [folder_go, hrb, List.countP_cons, ih]

theorem folder_go_warnings (rowOf : List Char → Option (List (String × PyVal)))
    (blobs : List (List Char)) : ∀ t : ℕ,
    (folder_go rowOf blobs t).2 = blobs.countP (fun b => (rowOf b).isNone) := by
  induction blobs with
  | nil => intro t; simp [folder_go]
  | cons b rest ih =>
    intro t
    cases hrb : rowOf b with
    | some d => simp [folder_go, hrb, List.countP_cons, ih]
    | none => simp [folder_go, hrb, List.countP_cons, ih]

theorem countP_isSome_add_isNone (rowOf : List Char → Option (List (String × PyVal)))
    (blobs : List (List Char)) :
    blobs.countP (fun b => (rowOf b).isSome) + blobs.countP (fun b => (rowOf b).isNone) =
      blobs.length := by
  induction blobs with
  | nil => simp
  | cons b rest ih =>
    cases hrb : rowOf b <;> simp [List.countP_cons, hrb] <;> omega

theorem folder_go_skip (rowOf : List Char → Option (List (String × PyVal)))
    (pre post : List (List Char)) (bad : List Char) (hbad : rowOf bad = none) :
    ∀ t : ℕ, folder_go rowOf (pre ++ bad :: post) t =
      ((folder_go rowOf (pre ++ post) t).1, (folder_go rowOf (pre ++ post) t).2 + 1) := by
  induction pre with
  | nil => intro t; simp [folder_go, hbad]
  | cons b rest ih =>
    intro t
    cases hrb : rowOf b with
    | some d => simp [folder_go, hrb, ih]
    | none => simp [folder_go, hrb, ih]

theorem folder_go_numbered (rowOf : List Char → Option (List (String × PyVal)))
    (blobs : List (List Char)) : ∀ t : ℕ,
    (folder_go rowOf blobs t).1 = numberedFrom t (blobs.filterMap rowOf) := by
  induction blobs with
  | nil => intro t; simp [folder_go, numberedFrom]
  | cons b rest ih =>
    intro t
    cases hrb : rowOf b with
    | some d => simp [folder_go, hrb, List.filterMap_cons, numberedFrom, ih]
    | none => simp [folder_go, hrb, List.filterMap_cons, ih]

theorem numberedFrom_testRun (ds : List (List (String × PyVal))) : ∀ t : ℕ,
    (numberedFrom t ds).map (fun r => dget r "TestRun#") =
      (List.range' t ds.length).map (fun i => some (PyVal.int (i : ℤ))) := by
  induction ds with
  | nil => intro t; simp [numberedFrom]
  | cons d rest ih =>
    intro t
    rw [numberedFrom, List.length_cons, List.range'_succ]
    simp [dget_cons, ih]

theorem length_filterMap_countP (rowOf : List Char → Option (List (String × PyVal)))
    (blobs : List (List Char)) :
    (blobs.filterMap rowOf).length = blobs.countP (fun b => (rowOf b).isSome) := by
  induction blobs with
  | nil => simp
  | cons b rest ih =>
    cases hrb : rowOf b <;> simp [List.filterMap_cons, hrb, List.countP_cons, ih]

/-! ### Writer lemmas. -/

theorem dict_to_list_ok {α : Type} (fieldnames : List String) (r : List (String × α))
    (h : ∀ k ∈ r.map Prod.fst, fieldnames.contains k = true) :
    dict_to_list fieldnames r = Except.ok (fieldnames.map (fun f => dget r f)) := by
  rw [dict_to_list, if_pos]
  rw [List.all_eq_true]
  exact h

theorem dict_to_list_error {α : Type} (fieldnames : List String) (r : List (String × α))
    (k : String) (hk : k ∈ r.map Prod.fst) (hc : fieldnames.contains k = false) :
    dict_to_list fieldnames r = Except.error () := by
  rw [dict_to_list, if_neg]
  intro hall
  rw [List.all_eq_true] at hall
  rw [hall k hk] at hc
  exact Bool.noConfusion hc

theorem writerows_ok {α : Type} (fieldnames : List String)
    (data : List (List (String × α)))
    (h : ∀ r ∈ data, ∀ k ∈ r.map Prod.fst, fieldnames.contains k = true) :
    writerows fieldnames data =
      (data.map (fun r => fieldnames.map (fun f => dget r f)), false) := by
  induction data with
  | nil => rfl
  | cons r rest ih =>
    rw [writerows, dict_to_list_ok fieldnames r (h r (List.mem_cons_self r rest))]
    rw [ih (fun r2 hr2 => h r2 (List.mem_cons_of_mem r hr2))]
    simp

/-! ### Lookup in rows built by mapping over a fixed field list. -/

theorem dget_map_graph (l : List (String × PyVal)) (g : String × PyVal → PyVal) (k : String) :
    dget (l.map (fun kv => (kv.1, g kv))) k =
      (l.find? (fun kv => decide (kv.1 = k))).map g := by
  induction l with
  | nil => simp [dget_nil]
  | cons kv rest ih =>
    by_cases hk : kv.1 = k
    · simp [dget_cons, List.find?_cons, hk]
    · simp [dget_cons, List.find?_cons, hk, ih]

theorem find_of_mem_keys (l : List (String × PyVal)) (k : String)
    (h : k ∈ l.map Prod.fst) :
    ∃ kv, l.find? (fun kv => decide (kv.1 = k)) = some kv ∧ kv.1 = k := by
  induction l with
  | nil => simp at h
  | cons kv rest ih =>
    by_cases hk : kv.1 = k
    · exact ⟨kv, by simp [List.find?_cons, hk], hk⟩
    · have h2 : k ∈ rest.map Prod.fst := by
        rcases List.mem_cons.mp h with h3 | h3
        · exact absurd h3.symm hk
        · exact h3
      obtain ⟨kv2, hfind, hkv2⟩ := ih h2
      exact ⟨kv2, by simp [List.find?_cons, hk, hfind], hkv2⟩

/-! ### Claim theorems. -/

/-- C1, counterexample: in `parse_trial5_data` (trial5_parser.py) a run whose
map contains `PROCESSING_START` and `UI_UPDATE_START` but lacks
`DEDUPLICATION_START` gets `phase2 = 70`, the missing start having been
silently coerced to 0 — the claim requires `None` whenever either named
timestamp is absent. -/
theorem claim_C1_counterexample :
    dget [("PROCESSING_START", (100 : ℤ)), ("UI_UPDATE_START", 70)] "DEDUPLICATION_START" =
      none ∧
    (trial5Phases [("PROCESSING_START", (100 : ℤ)), ("UI_UPDATE_START", 70)]).phase2HashProcessingMs =
      some 70 := by
  constructor
  · rfl
  · rfl

/-- C1 (amended): in parse_console_log.py's `parse_timing_data`, for every run
map containing `PROCESSING_START` (as every extractor-produced run map does),
each phase duration equals end − start when both named timestamps are present
and is None when either is absent.  In trial5_parser.py each absent endpoint
is coerced to 0 during derivation, and each duration is (coerced end) −
(coerced start) when that is nonnegative and None otherwise. -/
theorem claim_C1_amended :
    (∀ (m : List (String × ℤ)) (p d : ℤ), dget m "PROCESSING_START" = some p →
        dget m "DEDUPLICATION_START" = some d →
        (computePhases m).phase1FileAnalysisMs = some (d - p)) ∧
    (∀ m : List (String × ℤ), dget m "DEDUPLICATION_START" = none →
        (computePhases m).phase1FileAnalysisMs = none) ∧
    (∀ (m : List (String × ℤ)) (u d : ℤ), dget m "UI_UPDATE_START" = some u →
        dget m "DEDUPLICATION_START" = some d →
        (computePhases m).phase2HashProcessingMs = some (u - d)) ∧
    (∀ m : List (String × ℤ),
        dget m "UI_UPDATE_START" = none ∨ dget m "DEDUPLICATION_START" = none →
        (computePhases m).phase2HashProcessingMs = none) ∧
    (∀ (m : List (String × ℤ)) (a u : ℤ), dget m "ALL_FILES_DISPLAYED" = some a →
        dget m "UI_UPDATE_START" = some u →
        (computePhases m).phase3UIRenderingMs = some (a - u)) ∧
    (∀ m : List (String × ℤ),
        dget m "ALL_FILES_DISPLAYED" = none ∨ dget m "UI_UPDATE_START" = none →
        (computePhases m).phase3UIRenderingMs = none) ∧
    (∀ (m : List (String × ℤ)) (p a : ℤ), dget m "PROCESSING_START" = some p →
        dget m "ALL_FILES_DISPLAYED" = some a →
        (computePhases m).totalDurationMs = some (a - p)) ∧
    (∀ m : List (String × ℤ), dget m "ALL_FILES_DISPLAYED" = none →
        (computePhases m).totalDurationMs = none) ∧
    (∀ m : List (String × ℤ),
        (trial5Phases m).phase1FileAnalysisMs =
          (if (dget m "PROCESSING_START").getD 0 ≤ (dget m "DEDUPLICATION_START").getD 0
           then some ((dget m "DEDUPLICATION_START").getD 0 -
             (dget m "PROCESSING_START").getD 0)
           else none) ∧
        (trial5Phases m).phase2HashProcessingMs =
          (if (dget m "DEDUPLICATION_START").getD 0 ≤ (dget m "UI_UPDATE_START").getD 0
           then some ((dget m "UI_UPDATE_START").getD 0 -
             (dget m "DEDUPLICATION_START").getD 0)
           else none) ∧
        (trial5Phases m).phase3UIRenderingMs =
          (if (dget m "UI_UPDATE_START").getD 0 ≤ (dget m "ALL_FILES_DISPLAYED").getD 0
           then some ((dget m "ALL_FILES_DISPLAYED").getD 0 -
             (dget m "UI_UPDATE_START").getD 0)
           else none) ∧
        (trial5Phases m).totalDurationMs =
          (if (dget m "PROCESSING_START").getD 0 ≤ (dget m "ALL_FILES_DISPLAYED").getD 0
           then some ((dget m "ALL_FILES_DISPLAYED").getD 0 -
             (dget m "PROCESSING_START").getD 0)
           else none)) := by
  refine ⟨?_, ?_, ?_, ?_, ?_, ?_, ?_, ?_, ?_⟩
  · intro m p d h1 h2
    simp [computePhases, h1, h2]
  · intro m h1
    simp [computePhases, h1]
  · intro m u d h1 h2
    simp [computePhases, h1, h2]
  · intro m h1
    rcases h1 with h1 | h1
    · cases h2 : dget m "DEDUPLICATION_START" <;> simp [computePhases, h1, h2]
    · cases h2 : dget m "UI_UPDATE_START" <;> simp [computePhases, h1, h2]
  · intro m a u h1 h2
    simp [computePhases, h1, h2]
  · intro m h1
    rcases h1 with h1 | h1
    · cases h2 : dget m "UI_UPDATE_START" <;> simp [computePhases, h1, h2]
    · cases h2 : dget m "ALL_FILES_DISPLAYED" <;> simp [computePhases, h1, h2]
  · intro m p a h1 h2
    simp [computePhases, h1, h2]
  · intro m h1
    simp [computePhases, h1]
  · intro m
    exact ⟨rfl, rfl, rfl, rfl⟩

/-- C1 witness: the amended theorem applied to the concrete run map
`PROCESSING_START = 100, DEDUPLICATION_START = 250`. -/
theorem claim_C1_amended_witness :
    (computePhases [("PROCESSING_START", (100 : ℤ)), ("DEDUPLICATION_START", 250)]).phase1FileAnalysisMs =
      some 150 :=
  (claim_C1_amended.1 [("PROCESSING_START", 100), ("DEDUPLICATION_START", 250)]
    100 250 rfl rfl).trans (by decide)

/-- C7, counterexample: in `parse_trial5_data` (trial5_parser.py) a run with
both `PROCESSING_START = 100` and `DEDUPLICATION_START = 50` present — a
non-monotone pair — yields `phase1 = None`, not the silently produced
negative difference −50 the claim asserts. -/
theorem claim_C7_counterexample :
    dget [("PROCESSING_START", (100 : ℤ)), ("DEDUPLICATION_START", 50)] "PROCESSING_START" =
      some 100 ∧
    dget [("PROCESSING_START", (100 : ℤ)), ("DEDUPLICATION_START", 50)] "DEDUPLICATION_START" =
      some 50 ∧
    (trial5Phases [("PROCESSING_START", (100 : ℤ)), ("DEDUPLICATION_START", 50)]).phase1FileAnalysisMs ≠
      some (50 - 100) ∧
    (trial5Phases [("PROCESSING_START", (100 : ℤ)), ("DEDUPLICATION_START", 50)]).phase1FileAnalysisMs =
      none := by
  refine ⟨rfl, rfl, ?_, rfl⟩
  decide

/-- C7 (amended): parse_console_log.py's phase derivation performs no
monotonicity validation — with both endpoints present and end < start it
silently produces the negative difference; trial5_parser.py instead silently
yields None for a non-monotone phase (`end - start if end >= start else
None`), also without raising an error. -/
theorem claim_C7_amended :
    (∀ (m : List (String × ℤ)) (p d : ℤ), dget m "PROCESSING_START" = some p →
        dget m "DEDUPLICATION_START" = some d → d < p →
        (computePhases m).phase1FileAnalysisMs = some (d - p) ∧ d - p < 0) ∧
    (∀ (m : List (String × ℤ)) (u d : ℤ), dget m "UI_UPDATE_START" = some u →
        dget m "DEDUPLICATION_START" = some d → u < d →
        (computePhases m).phase2HashProcessingMs = some (u - d) ∧ u - d < 0) ∧
    (∀ (m : List (String × ℤ)) (a u : ℤ), dget m "ALL_FILES_DISPLAYED" = some a →
        dget m "UI_UPDATE_START" = some u → a < u →
        (computePhases m).phase3UIRenderingMs = some (a - u) ∧ a - u < 0) ∧
    (∀ (m : List (String × ℤ)) (p d : ℤ), dget m "PROCESSING_START" = some p →
        dget m "DEDUPLICATION_START" = some d → d < p →
        (trial5Phases m).phase1FileAnalysisMs = none) := by
  refine ⟨?_, ?_, ?_, ?_⟩
  · intro m p d h1 h2 h3
    refine ⟨by simp [computePhases, h1, h2], by omega⟩
  · intro m u d h1 h2 h3
    refine ⟨by simp [computePhases, h1, h2], by omega⟩
  · intro m a u h1 h2 h3
    refine ⟨by simp [computePhases, h1, h2], by omega⟩
  · intro m p d h1 h2 h3
    simp only [trial5Phases, h1, h2, Option.getD_some]
    rw [if_neg (by omega)]

/-- C7 witness: the amended theorem applied to the concrete run map
`PROCESSING_START = 10, DEDUPLICATION_START = 4`. -/
theorem claim_C7_amended_witness :
    (computePhases [("PROCESSING_START", (10 : ℤ)), ("DEDUPLICATION_START", 4)]).phase1FileAnalysisMs =
      some (-6) ∧ ((-6 : ℤ) < 0) := by
  have h := claim_C7_amended.1 [("PROCESSING_START", (10 : ℤ)), ("DEDUPLICATION_START", 4)]
    10 4 rfl rfl (by decide)
  exact ⟨h.1.trans (by decide), by decide⟩

/-- C8, counterexample: `main` of trial5_parser.py plain-returns after
printing the file-not-found message, so the process exits 0 when its input
file does not exist — the claim requires exit code 1. -/
theorem claim_C8_counterexample :
    trial5_main false = 0 ∧ trial5_main false ≠ 1 := by
  decide

/-- C8 (amended): `main` of parse_console_log.py (and improved_parser_json.py)
exits 1 exactly on a wrong argument count or a missing input file and 0
otherwise; `main` of trial5_parser.py takes no argument and always exits 0,
even when its hard-coded input file is missing. -/
theorem claim_C8_amended :
    (∀ (argc : ℕ) (ex : Bool),
      parse_console_log_main argc ex = if argc = 2 ∧ ex = true then 0 else 1) ∧
    (∀ ex : Bool, trial5_main ex = 0) := by
  constructor
  · intro argc ex
    by_cases h2 : argc = 2 <;> cases ex <;> simp [parse_console_log_main, h2]
  · intro ex
    cases ex <;> rfl

/-- C9, counterexample: `csv.DictWriter` is constructed with the default
`extrasaction='raise'`, so a record containing a key outside the caller's
fieldnames makes `writerows` raise `ValueError` (no row written) instead of
rendering the unknown key as empty as the claim states. -/
theorem claim_C9_counterexample :
    writerows ["a"] [[("b", (0 : ℤ))]] = ([], true) ∧
    writerows ["a"] [[("b", (0 : ℤ))]] ≠ ([[(none : Option ℤ)]], false) := by
  decide

/-- C9 (amended): the tabular writer emits the field names as the header row,
then one row per record whose cell under column `f` is the record's value for
`f`, with a column absent from the record rendered as the empty cell — for
all records whose keys all lie among the specified columns.  A record with a
key outside the columns instead raises `ValueError` (DictWriter default
`extrasaction='raise'`), aborting the remaining rows. -/
theorem claim_C9_amended :
    (∀ (α : Type) (fieldnames : List String) (data : List (List (String × α))),
      (∀ r ∈ data, ∀ k ∈ r.map Prod.fst, fieldnames.contains k = true) →
      write_csv data fieldnames =
        (fieldnames, (data.map (fun r => fieldnames.map (fun f => dget r f)), false))) ∧
    (∀ (α : Type) (fieldnames : List String) (r : List (String × α)) (k : String),
      k ∈ r.map Prod.fst → fieldnames.contains k = false →
      dict_to_list fieldnames r = Except.error ()) := by
  constructor
  · intro α fieldnames data h
    rw [write_csv, writerows_ok fieldnames data h]
  · intro α fieldnames r k hk hc
    exact dict_to_list_error fieldnames r k hk hc

/-- C9 witness: the amended theorem applied to one record `a = 3` written
under columns `a, b`: the header lists the columns, the value lands under its
column, and the record-less column `b` renders as the empty cell. -/
theorem claim_C9_amended_witness :
    write_csv [[("a", (3 : ℤ))]] ["a", "b"] =
      (["a", "b"], ([[some 3, none]], false)) :=
  (claim_C9_amended.1 ℤ ["a", "b"] [[("a", 3)]] (by decide)).trans (by decide)

/-- C2, counterexample: in `parse_timing_data` of
src/docs/speed_tests/parse_console_log.py the run counter starts at 1, so for
the stream `A:5` then `PROCESSING_START:10` — one boundary marker — the
extractor produces two run groups, and the pre-marker event `A` is stored in
group 1 rather than discarded. -/
theorem claim_C2_counterexample :
    countStart [("A", (5 : ℤ)), ("PROCESSING_START", 10)] = 1 ∧
    (parse_timing_data_groups_docs [("A", (5 : ℤ)), ("PROCESSING_START", 10)]).length = 2 ∧
    dget ((dget (parse_timing_data_groups_docs
        [("A", (5 : ℤ)), ("PROCESSING_START", 10)]) 1).getD []) "A" = some 5 := by
  decide

/-- C2 (amended): in parse_console_log.py (plans) and improved_parser_json.py
the claim holds as stated — `N` markers yield exactly the groups `1..N`,
events before the first marker are discarded, and group `k` consists of
exactly the events from the `k`-th marker up to (excluding) the `(k+1)`-th.
In docs/speed_tests/parse_console_log.py the counter starts at one: events
before the first marker form group 1, the events between marker `k` and
`k + 1` form group `k + 1`, and the extractor yields `N + 1` groups whenever a
pre-marker event exists (`N` otherwise). -/
theorem claim_C2_amended :
    (∀ evs : List Event,
      (parse_timing_data_groups evs).map Prod.fst = List.range' 1 (countStart evs)) ∧
    (∀ evs : List Event,
      parse_timing_data_groups evs =
        parse_timing_data_groups (evs.dropWhile (fun e => decide (¬(e.1 = startEvent))))) ∧
    (∀ (pre mid post : List Event) (v : ℤ), countStart mid = 0 →
      (post = [] ∨ ∃ w rest, post = (startEvent, w) :: rest) →
      dget (parse_timing_data_groups (pre ++ (startEvent, v) :: mid ++ post))
          (countStart pre + 1) =
        some (lastMap ((startEvent, v) :: mid))) ∧
    (∀ (pre mid post : List Event) (v : ℤ), countStart mid = 0 →
      (post = [] ∨ ∃ w rest, post = (startEvent, w) :: rest) →
      dget (parse_timing_data_groups_docs (pre ++ (startEvent, v) :: mid ++ post))
          (countStart pre + 2) =
        some (lastMap ((startEvent, v) :: mid))) ∧
    (∀ evs : List Event,
      (parse_timing_data_groups_docs evs).map Prod.fst =
        (if hasPre evs then [1] else []) ++ List.range' 2 (countStart evs)) := by
  refine ⟨timing_groups_keys, ?_, ?_, ?_, timing_groups_docs_keys⟩
  · intro evs
    have hpre0 : countStart (evs.takeWhile (fun e => decide (¬(e.1 = startEvent)))) = 0 := by
      rw [countStart, List.countP_eq_zero]
      intro a ha
      have h2 := List.mem_takeWhile_imp ha
      simpa using h2
    conv_lhs =>
      rw [← List.takeWhile_append_dropWhile
        (p := fun e => decide (¬(e.1 = startEvent))) (l := evs)]
    rw [parse_timing_data_groups, List.foldl_append, timingFold_pre _ hpre0]
    rfl
  · intro pre mid post v hmid hpost
    have hcN : countStart (pre ++ (startEvent, v) :: mid ++ post) =
        countStart pre + countStart mid + 1 + countStart post := by
      rw [countStart_append, countStart_append, countStart_cons]
      simp [startEvent]
      omega
    rw [timing_groups_dget, if_pos (by rw [hcN]; omega)]
    have hseg := runEventsFrom_segment 0 pre mid post v hmid hpost
    rw [show countStart pre + 1 = 0 + countStart pre + 1 by omega, hseg]
  · intro pre mid post v hmid hpost
    have hseg := runEventsFrom_segment 1 pre mid post v hmid hpost
    rw [timing_groups_docs_dget]
    rw [show countStart pre + 2 = 1 + countStart pre + 1 by omega, hseg]
    rw [if_neg (by simp)]

/-- C2 witness: the amended theorem's segment clause applied to the concrete
stream `X:1, PROCESSING_START:10, A:20`: group 1 of the plans extractor is
exactly the marker and the following event, the pre-marker event discarded. -/
theorem claim_C2_amended_witness :
    dget (parse_timing_data_groups ([("X", (1 : ℤ))] ++ ("PROCESSING_START", 10) ::
        [("A", 20)] ++ [])) (countStart [("X", (1 : ℤ))] + 1) =
      some [("PROCESSING_START", 10), ("A", 20)] :=
  (claim_C2_amended.2.2.1 [("X", (1 : ℤ))] [("A", 20)] [] 10 (by decide)
    (Or.inl rfl)).trans (by decide)

/-- C5: within one run group the stored value of an event name is the value
of the last occurrence of that name among that run's own events
(last-write-wins), in both the plans and the docs grouping loops — so an
occurrence in a different run can never overwrite it; and on the spec's
two-marker example each run keeps its own value of `A`. -/
theorem claim_C5 :
    (∀ (evs : List Event) (k : ℕ) (n : String), 1 ≤ k →
      dget ((dget (parse_timing_data_groups evs) k).getD []) n =
        lastValue (runEventsFrom 0 k evs) n) ∧
    (∀ (evs : List Event) (k : ℕ) (n : String),
      dget ((dget (parse_timing_data_groups_docs evs) k).getD []) n =
        lastValue (runEventsFrom 1 k evs) n) ∧
    (parse_timing_data_groups
        [("PROCESSING_START", (0 : ℤ)), ("A", 0), ("PROCESSING_START", 50), ("A", 50)] =
      [(1, [("PROCESSING_START", 0), ("A", 0)]), (2, [("PROCESSING_START", 50), ("A", 50)])]) ∧
    (dget ((dget (parse_timing_data_groups
        [("PROCESSING_START", (0 : ℤ)), ("A", 1), ("A", 2)]) 1).getD []) "A" = some 2) := by
  refine ⟨?_, ?_, by decide, by decide⟩
  · intro evs k n hk
    by_cases hk2 : k ≤ countStart evs
    · rw [timing_groups_dget, if_pos ⟨hk, hk2⟩, Option.getD_some, dget_lastMap]
    · rw [timing_groups_dget, if_neg (by omega),
        runEventsFrom_high 0 k evs (by omega)]
      rfl
  · intro evs k n
    rw [timing_groups_docs_dget]
    by_cases hemp : runEventsFrom 1 k evs = []
    · rw [if_pos hemp, hemp]
      rfl
    · rw [if_neg hemp, Option.getD_some, dget_lastMap]

/-- C5 witness: the theorem's first clause applied to the concrete stream
`PROCESSING_START:5, B:7, B:9`: run 1 stores the last value of `B`. -/
theorem claim_C5_witness :
    dget ((dget (parse_timing_data_groups
        [("PROCESSING_START", (5 : ℤ)), ("B", 7), ("B", 9)]) 1).getD []) "B" = some 9 :=
  (claim_C5.1 [("PROCESSING_START", (5 : ℤ)), ("B", 7), ("B", 9)] 1 "B"
    (by decide)).trans (by decide)

/-- C3: both folder-metric extractors are total (modelled failure is a value,
matching the `try/except` that catches per-blob errors): for `M` captured
markers they return exactly one record per well-formed blob — `M` minus the
number of malformed blobs — print one warning per malformed blob, and a
malformed blob in any position contributes nothing except its warning, the
remaining blobs being processed exactly as if it were absent. -/
theorem claim_C3 :
    (∀ blobs : List (List Char),
      (parse_json_folder_analysis_data blobs).1.length =
        blobs.countP (fun b => (json_row_of_blob b).isSome)) ∧
    (∀ blobs : List (List Char),
      (parse_json_folder_analysis_data blobs).1.length +
        blobs.countP (fun b => (json_row_of_blob b).isNone) = blobs.length) ∧
    (∀ blobs : List (List Char),
      (parse_json_folder_analysis_data blobs).2 =
        blobs.countP (fun b => (json_row_of_blob b).isNone)) ∧
    (∀ (pre post : List (List Char)) (bad : List Char), json_row_of_blob bad = none →
      parse_json_folder_analysis_data (pre ++ bad :: post) =
        ((parse_json_folder_analysis_data (pre ++ post)).1,
         (parse_json_folder_analysis_data (pre ++ post)).2 + 1)) ∧
    (∀ blobs : List (List Char),
      (parse_folder_analysis_data blobs).1.length =
        blobs.countP (fun b => (plans_row_of_blob b).isSome)) ∧
    (∀ blobs : List (List Char),
      (parse_folder_analysis_data blobs).1.length +
        blobs.countP (fun b => (plans_row_of_blob b).isNone) = blobs.length) ∧
    (∀ blobs : List (List Char),
      (parse_folder_analysis_data blobs).2 =
        blobs.countP (fun b => (plans_row_of_blob b).isNone)) ∧
    (∀ (pre post : List (List Char)) (bad : List Char), plans_row_of_blob bad = none →
      parse_folder_analysis_data (pre ++ bad :: post) =
        ((parse_folder_analysis_data (pre ++ post)).1,
         (parse_folder_analysis_data (pre ++ post)).2 + 1)) := by
  refine ⟨?_, ?_, ?_, ?_, ?_, ?_, ?_, ?_⟩
  · intro blobs
    exact folder_go_length json_row_of_blob blobs 1
  · intro blobs
    show (folder_go json_row_of_blob blobs 1).1.length +
      blobs.countP (fun b => (json_row_of_blob b).isNone) = blobs.length
    rw [folder_go_length json_row_of_blob blobs 1]
    exact countP_isSome_add_isNone json_row_of_blob blobs
  · intro blobs
    exact folder_go_warnings json_row_of_blob blobs 1
  · intro pre post bad hbad
    exact folder_go_skip json_row_of_blob pre post bad hbad 1
  · intro blobs
    exact folder_go_length plans_row_of_blob blobs 1
  · intro blobs
    show (folder_go plans_row_of_blob blobs 1).1.length +
      blobs.countP (fun b => (plans_row_of_blob b).isNone) = blobs.length
    rw [folder_go_length plans_row_of_blob blobs 1]
    exact countP_isSome_add_isNone plans_row_of_blob blobs
  · intro blobs
    exact folder_go_warnings plans_row_of_blob blobs 1
  · intro pre post bad hbad
    exact folder_go_skip plans_row_of_blob pre post bad hbad 1

/-- C3 witness: the skip clause applied concretely — a malformed JSON blob
(`"{"` alone, which `json.loads` rejects) between two well-formed blobs adds
exactly one warning and leaves the extracted records those of the two good
blobs. -/
theorem claim_C3_witness :
    parse_json_folder_analysis_data
        (["\x7b\"totalFiles\": 3\x7d".toList] ++ "\x7b".toList ::
          ["\x7b\"totalFiles\": 9\x7d".toList]) =
      ((parse_json_folder_analysis_data
          (["\x7b\"totalFiles\": 3\x7d".toList] ++ ["\x7b\"totalFiles\": 9\x7d".toList])).1,
       (parse_json_folder_analysis_data
          (["\x7b\"totalFiles\": 3\x7d".toList] ++ ["\x7b\"totalFiles\": 9\x7d".toList])).2 + 1) :=
  claim_C3.2.2.2.1 ["\x7b\"totalFiles\": 3\x7d".toList]
    ["\x7b\"totalFiles\": 9\x7d".toList] "\x7b".toList (by decide)

/-- C10: in both the plans and the json folder extractors the emitted records
are exactly the successfully parsed rows in document order, numbered by the
consecutive integers `1..n` (`n` the number of well-formed blobs): a skipped
malformed blob consumes no index, so every later record's `TestRun#` is one
lower than its marker's ordinal among all markers — silently shifting the
positional join against the timing-run indices. -/
theorem claim_C10 :
    (∀ blobs : List (List Char),
      (parse_json_folder_analysis_data blobs).1 =
        numberedFrom 1 (blobs.filterMap json_row_of_blob)) ∧
    (∀ blobs : List (List Char),
      (parse_json_folder_analysis_data blobs).1.map (fun r => dget r "TestRun#") =
        (List.range' 1 (blobs.countP (fun b => (json_row_of_blob b).isSome))).map
          (fun i => some (PyVal.int (i : ℤ)))) ∧
    (∀ blobs : List (List Char),
      (parse_folder_analysis_data blobs).1 =
        numberedFrom 1 (blobs.filterMap plans_row_of_blob)) ∧
    (∀ blobs : List (List Char),
      (parse_folder_analysis_data blobs).1.map (fun r => dget r "TestRun#") =
        (List.range' 1 (blobs.countP (fun b => (plans_row_of_blob b).isSome))).map
          (fun i => some (PyVal.int (i : ℤ)))) := by
  refine ⟨?_, ?_, ?_, ?_⟩
  · intro blobs
    exact folder_go_numbered json_row_of_blob blobs 1
  · intro blobs
    show (folder_go json_row_of_blob blobs 1).1.map (fun r => dget r "TestRun#") = _
    rw [folder_go_numbered json_row_of_blob blobs 1, numberedFrom_testRun,
      length_filterMap_countP]
  · intro blobs
    exact folder_go_numbered plans_row_of_blob blobs 1
  · intro blobs
    show (folder_go plans_row_of_blob blobs 1).1.map (fun r => dget r "TestRun#") = _
    rw [folder_go_numbered plans_row_of_blob blobs 1, numberedFrom_testRun,
      length_filterMap_countP]

/-- Any value `float()` successfully returns is a float. -/
theorem pyFloat_shape (g : List Char) (v : PyVal) (h : pyFloat g = some v) :
    ∃ m s, v = PyVal.float m s := by
  rw [pyFloat] at h
  split at h
  · split at h
    · exact absurd h (by simp)
    · injection h with h2
      exact ⟨_, _, h2.symm⟩
  · split at h
    · injection h with h2
      exact ⟨_, _, h2.symm⟩
    · exact absurd h (by simp)
  · exact absurd h (by simp)

theorem improved_search_none (blob : List Char) (f : String)
    (hf : improvedFloatFields.contains f = true)
    (hs : reSearchField (f ++ ":").toList true blob = none) :
    improved_field_value blob f = some (PyVal.float 0 1) := by
  simp only [improved_field_value, hf]
  rw [hs]
  simp

theorem improved_search_some (blob : List Char) (f : String) (g : List Char)
    (hf : improvedFloatFields.contains f = true)
    (hs : reSearchField (f ++ ":").toList true blob = some g) :
    improved_field_value blob f = pyFloat g := by
  simp only [improved_field_value, hf]
  rw [hs]
  simp

theorem improved_int_shape (blob : List Char) (f : String)
    (hf : improvedFloatFields.contains f = false) :
    ∃ n : ℤ, improved_field_value blob f = some (PyVal.int n) := by
  simp only [improved_field_value, hf]
  cases hs : reSearchField (f ++ ":").toList false blob with
  | some g =>
    refine ⟨pyInt g, ?_⟩
    simp
  | none =>
    refine ⟨0, ?_⟩
    simp

theorem plans_search_none (blob : List Char) (f : String)
    (hf : plansFloatFields.contains f = true)
    (hs : reSearchField (f ++ ":").toList true blob = none) :
    plans_field_value blob f = some (PyVal.int 0) := by
  simp only [plans_field_value, hf]
  rw [hs]

theorem plans_search_some (blob : List Char) (f : String) (g : List Char)
    (hf : plansFloatFields.contains f = true)
    (hs : reSearchField (f ++ ":").toList true blob = some g) :
    plans_field_value blob f = pyFloat g := by
  simp only [plans_field_value, hf]
  rw [hs]
  simp

theorem plans_int_shape (blob : List Char) (f : String)
    (hf : plansFloatFields.contains f = false) :
    ∃ n : ℤ, plans_field_value blob f = some (PyVal.int n) := by
  simp only [plans_field_value, hf]
  cases hs : reSearchField (f ++ ":").toList false blob with
  | some g =>
    refine ⟨pyInt g, ?_⟩
    simp
  | none =>
    refine ⟨0, ?_⟩
    simp

/-- C4, counterexample: the key:value extractor of
src/docs/speed_tests/parse_console_log.py does not copy `avgDirectoryDepth`
from the blob — it fabricates the estimate 2.5 whenever `subfolderFiles > 0`.
Encoding an object with `avgDirectoryDepth: 3.7` behind the marker and
extracting yields 2.5 (mantissa 25, shift 1), not the encoded 3.7 (mantissa
37, shift 1); the two differ as values since 25·10 ≠ 37·10. -/
theorem claim_C4_counterexample :
    (docs_row_of_blob "subfolderFiles: 1, avgDirectoryDepth: 3.7".toList).map
        (fun r => dget r "avgDirectoryDepth") = some (some (PyVal.float 25 1)) ∧
    pyFloat "3.7".toList = some (PyVal.float 37 1) ∧
    (25 : ℤ) * 10 ^ 1 ≠ 37 * 10 ^ 1 := by
  decide

set_option maxRecDepth 8000 in
/-- C4 (amended): the JSON extractor (improved_parser_json.py) satisfies the
claim — every field of the decoded object that is among the row's sixteen
fields appears in the produced record with exactly its decoded value, nothing
estimated; and encoding a known sixteen-field object behind the marker and
extracting reproduces every field value exactly.  The key:value extractor of
docs/speed_tests/parse_console_log.py violates it: it emits fabricated
estimates (`avgDirectoryDepth`, `avgFilenameLength`, `maxDirectoryDepth`,
`largestFileSizesMB`, `zeroByteFiles`) instead of reading them from the
blob. -/
theorem claim_C4_amended :
    (∀ (blob : List Char) (obj : List (String × PyVal)) (k : String) (v : PyVal),
      jsonParse blob = some obj →
      k ∈ json_row_fields.map Prod.fst →
      dget obj k = some v →
      ∃ row, json_row_of_blob blob = some row ∧ dget row k = some v) ∧
    (parse_json_folder_analysis_data [encodeJsonBlob
      [("timestamp", "1755561234567"), ("totalFiles", "1500"),
       ("duplicateCandidateCount", "300"), ("duplicateCandidatePercent", "20"),
       ("uniqueFilesSizeMB", "512.5"), ("duplicateCandidatesSizeMB", "128.25"),
       ("totalSizeMB", "640.75"), ("totalDirectoryCount", "42"),
       ("avgDirectoryDepth", "3.4"), ("maxDirectoryDepth", "7"),
       ("uniqueFilesTotal", "1200"), ("maxFileDepth", "9"),
       ("avgFileDepth", "4.2"), ("avgFilenameLength", "25.6"),
       ("zeroByteFiles", "3"), ("largestFileSizesMB", "98.5")]] =
      ([[("TestRun#", PyVal.int 1),
         ("timestamp", PyVal.int 1755561234567), ("totalFiles", PyVal.int 1500),
         ("duplicateCandidateCount", PyVal.int 300), ("duplicateCandidatePercent", PyVal.int 20),
         ("uniqueFilesSizeMB", PyVal.float 5125 1), ("duplicateCandidatesSizeMB", PyVal.float 12825 2),
         ("totalSizeMB", PyVal.float 64075 2), ("totalDirectoryCount", PyVal.int 42),
         ("avgDirectoryDepth", PyVal.float 34 1), ("maxDirectoryDepth", PyVal.int 7),
         ("uniqueFilesTotal", PyVal.int 1200), ("maxFileDepth", PyVal.int 9),
         ("avgFileDepth", PyVal.float 42 1), ("avgFilenameLength", PyVal.float 256 1),
         ("zeroByteFiles", PyVal.int 3), ("largestFileSizesMB", PyVal.float 985 1)]], 0)) := by
  constructor
  · intro blob obj k v hparse hmem hget
    refine ⟨json_row_fields.map (fun kv => (kv.1, (dget obj kv.1).getD kv.2)), ?_, ?_⟩
    · rw [json_row_of_blob, hparse]
      rfl
    · rw [dget_map_graph]
      obtain ⟨kv, hfind, hkv⟩ := find_of_mem_keys json_row_fields k hmem
      rw [hfind]
      simp [hkv, hget]
  · decide

/-- C4 witness: the general clause applied to the concrete blob
`{"totalFiles": 3}` — the decoded value 3 of `totalFiles` appears verbatim in
the extracted record. -/
theorem claim_C4_amended_witness :
    ∃ row, json_row_of_blob "\x7b\"totalFiles\": 3\x7d".toList = some row ∧
      dget row "totalFiles" = some (PyVal.int 3) :=
  claim_C4_amended.1 "\x7b\"totalFiles\": 3\x7d".toList [("totalFiles", PyVal.int 3)]
    "totalFiles" (PyVal.int 3) (by decide) (by decide) rfl

/-- C6, counterexample: in `parse_folder_analysis_data` of
src/docs/plans/Bookkeeper/speed_tests/parse_console_log.py the float-typed
field `totalSizeMB`, when absent from the blob, is stored as the Python
integer 0 (`data[field] = 0`), not the float 0.0 the claim asserts. -/
theorem claim_C6_counterexample :
    plansFloatFields.contains "totalSizeMB" = true ∧
    reSearchField ("totalSizeMB" ++ ":").toList true "timestamp: 5".toList = none ∧
    plans_field_value "timestamp: 5".toList "totalSizeMB" = some (PyVal.int 0) ∧
    PyVal.int 0 ≠ PyVal.float 0 1 := by
  decide

/-- C6 (amended): in both key:value extractors the parse applied to a present
field is fixed by the field name alone — `float()` for the declared float
fields, `int()` otherwise — never inferred from the value's text.  In
improved_parser.py the defaults are typed as the claim states (integer 0 for
count fields, float 0.0 for size/depth fields); in parse_console_log.py
(plans) an absent field of either declared type defaults to the Python
integer 0, so an absent float field is stored as an int. -/
theorem claim_C6_amended :
    (∀ (blob : List Char) (f : String), improvedFloatFields.contains f = true →
      reSearchField (f ++ ":").toList true blob = none →
      improved_field_value blob f = some (PyVal.float 0 1)) ∧
    (∀ (blob : List Char) (f : String) (v : PyVal),
      improvedFloatFields.contains f = true →
      improved_field_value blob f = some v → ∃ m s, v = PyVal.float m s) ∧
    (∀ (blob : List Char) (f : String) (v : PyVal),
      improvedFloatFields.contains f = false →
      improved_field_value blob f = some v → ∃ n, v = PyVal.int n) ∧
    (∀ (blob : List Char) (f : String) (g : List Char),
      improvedFloatFields.contains f = true →
      reSearchField (f ++ ":").toList true blob = some g →
      improved_field_value blob f = pyFloat g) ∧
    (∀ (blob : List Char) (f : String) (g : List Char),
      plansFloatFields.contains f = true →
      reSearchField (f ++ ":").toList true blob = some g →
      plans_field_value blob f = pyFloat g) ∧
    (∀ (blob : List Char) (f : String), plansFloatFields.contains f = true →
      reSearchField (f ++ ":").toList true blob = none →
      plans_field_value blob f = some (PyVal.int 0)) ∧
    (∀ (blob : List Char) (f : String) (v : PyVal),
      plansFloatFields.contains f = false →
      plans_field_value blob f = some v → ∃ n, v = PyVal.int n) := by
  refine ⟨improved_search_none, ?_, ?_, improved_search_some, plans_search_some,
    plans_search_none, ?_⟩
  · intro blob f v hf h
    cases hs : reSearchField (f ++ ":").toList true blob with
    | some g =>
      rw [improved_search_some blob f g hf hs] at h
      exact pyFloat_shape g v h
    | none =>
      rw [improved_search_none blob f hf hs] at h
      injection h with h2
      exact ⟨0, 1, h2.symm⟩
  · intro blob f v hf h
    obtain ⟨n, hn⟩ := improved_int_shape blob f hf
    rw [hn] at h
    injection h with h2
    exact ⟨n, h2.symm⟩
  · intro blob f v hf h
    obtain ⟨n, hn⟩ := plans_int_shape blob f hf
    rw [hn] at h
    injection h with h2
    exact ⟨n, h2.symm⟩

/-- C6 witness: the amended theorem's default clause applied concretely —
`totalSizeMB` absent from a blob is stored by improved_parser.py as the float
0.0. -/
theorem claim_C6_amended_witness :
    improved_field_value "timestamp: 5".toList "totalSizeMB" =
      some (PyVal.float 0 1) :=
  claim_C6_amended.1 "timestamp: 5".toList "totalSizeMB" (by decide) (by decide)

end Bookkeeper
